import Mathlib

/-!
Verification of the survey-coding pipeline

A shallow embedding, in Lean 4, of the core logic of the AI survey-coding
backend (`backend/core/logic.py`, `backend/core/gemini_logic.py`,
`backend/core/gemini_client.py`, `backend/core/reviewer.py`,
`backend/core/gemini_reviewer.py`).

Python strings are modelled as Lean `String` (lists of characters); pandas
cells that may be `NaN` are modelled as `Option String` where the distinction
matters, and as `""` where the code itself treats `NaN` and the empty string
alike.  Python regular expressions `[^\w\s]`, `\s+`, `\d+` are modelled
character-by-character over ASCII semantics (`\w` is alphanumeric or
underscore, `\s` is whitespace, `\d` is a decimal digit).  The model-service
calls are modelled by explicit oracle parameters: a classification or review
oracle stands for one completion call, so model-call counts can be stated.

All definitions are written with structural recursion so concrete runs reduce
inside the kernel (`decide` / `rfl`).
-/

namespace SurveyCoding

/-! ## Basic string primitives -/

/-- Characters of Python `str.strip()`: drop leading and trailing whitespace. -/
def trimChars (l : List Char) : List Char :=
  ((l.dropWhile Char.isWhitespace).reverse.dropWhile Char.isWhitespace).reverse

/-- Python `str.strip()`. -/
def pyStrip (s : String) : String := ⟨trimChars s.data⟩

/-- Python `str.lower()` (ASCII model). -/
def lowerStr (s : String) : String := ⟨s.data.map Char.toLower⟩

/-- A character matched by the regex class `\w` (ASCII model). -/
def isWordChar (c : Char) : Bool := c.isAlphanum || c = '_'

/-- A character that survives the punctuation-removing regex substitution
of `normalize_text` (everything neither word character nor whitespace is
deleted). -/
def keepChar (c : Char) : Bool := isWordChar c || c.isWhitespace

/-- The whitespace-collapsing regex substitution of `normalize_text`
(replace each maximal whitespace run by a single space).  The boolean records whether the previous character was
whitespace (so the run has already emitted its space). -/
def collapseWsAux : Bool → List Char → List Char
  | _, [] => []
  | prevWs, c :: cs =>
    if c.isWhitespace then
      if prevWs then collapseWsAux true cs
      else ' ' :: collapseWsAux true cs
    else c :: collapseWsAux false cs

/-- The function `normalize_text` from `logic.py`: lower-case, delete every character that
is neither a word character nor whitespace, collapse whitespace runs to a
single space, strip.  (`logic.py` maps a `NaN` cell to `""` first; callers
here always pass strings.) -/
def normalize_text (s : String) : String :=
  ⟨trimChars (collapseWsAux false ((s.data.map Char.toLower).filter keepChar))⟩

/-! ## Idempotence machinery for `normalize_text` -/

theorem toNat_ofNat_of_valid (m : Nat) (h : m.isValidChar) :
    (Char.ofNat m).toNat = m := by
  rw [Char.ofNat, dif_pos h]
  simp [Char.ofNatAux, Char.toNat, UInt32.toNat, BitVec.toNat_ofNatLt]

theorem toLower_toLower (c : Char) : c.toLower.toLower = c.toLower := by
  unfold Char.toLower
  by_cases h : c.toNat ≥ 65 ∧ c.toNat ≤ 90
  · rw [if_pos h]
    have hv : (c.toNat + 32).isValidChar := Or.inl (by omega)
    have ht : (Char.ofNat (c.toNat + 32)).toNat = c.toNat + 32 :=
      toNat_ofNat_of_valid _ hv
    rw [if_neg (by omega)]
  · rw [if_neg h, if_neg h]

/-- The invariant produced by whitespace collapsing: every whitespace
character is a plain space and no two adjacent characters are both
whitespace. -/
def WsOk (l : List Char) : Prop :=
  (∀ c ∈ l, c.isWhitespace = true → c = ' ') ∧
    l.Chain' (fun a b => ¬(a.isWhitespace = true ∧ b.isWhitespace = true))

theorem mem_collapseWsAux {c : Char} :
    ∀ (b : Bool) (l : List Char), c ∈ collapseWsAux b l → c ∈ l ∨ c = ' ' := by
  intro b l
  induction l generalizing b with
  | nil => intro h; exact absurd h (by simp [collapseWsAux])
  | cons d ds ih =>
    intro h
    by_cases hd : d.isWhitespace
    · cases b with
      | true =>
        simp only [collapseWsAux, hd, if_true] at h
        rcases ih true h with h' | h'
        · exact Or.inl (List.mem_cons_of_mem _ h')
        · exact Or.inr h'
      | false =>
        simp only [collapseWsAux, hd, if_true] at h
        rcases List.mem_cons.mp h with h' | h'
        · exact Or.inr h'
        · rcases ih true h' with h'' | h''
          · exact Or.inl (List.mem_cons_of_mem _ h'')
          · exact Or.inr h''
    · simp only [collapseWsAux, hd, if_false, Bool.false_eq_true] at h
      rcases List.mem_cons.mp h with h' | h'
      · exact Or.inl (h' ▸ List.mem_cons_self _ _)
      · rcases ih false h' with h'' | h''
        · exact Or.inl (List.mem_cons_of_mem _ h'')
        · exact Or.inr h''

theorem head_collapseWsAux_true {x : Char} :
    ∀ (l : List Char), (collapseWsAux true l).head? = some x →
      x.isWhitespace = false := by
  intro l
  induction l with
  | nil => intro h; simp [collapseWsAux] at h
  | cons d ds ih =>
    intro h
    by_cases hd : d.isWhitespace
    · simp only [collapseWsAux, hd, if_true] at h
      exact ih h
    · simp only [collapseWsAux, hd, if_false, Bool.false_eq_true,
        List.head?_cons, Option.some.injEq] at h
      subst h
      simpa using hd

theorem wsOk_collapseWsAux : ∀ (b : Bool) (l : List Char), WsOk (collapseWsAux b l) := by
  intro b l
  induction l generalizing b with
  | nil => exact ⟨by simp [collapseWsAux], by simp [collapseWsAux]⟩
  | cons d ds ih =>
    by_cases hd : d.isWhitespace
    · cases b with
      | true => simpa only [collapseWsAux, hd, if_true] using ih true
      | false =>
        simp only [collapseWsAux, hd, if_true]
        refine ⟨?_, ?_⟩
        · intro c hc hws
          rcases List.mem_cons.mp hc with h' | h'
          · exact h'
          · exact (ih true).1 c h' hws
        · refine List.chain'_cons'.mpr ⟨?_, (ih true).2⟩
          intro y hy
          have := head_collapseWsAux_true ds hy
          simp [this]
    · simp only [collapseWsAux, hd, if_false, Bool.false_eq_true]
      refine ⟨?_, ?_⟩
      · intro c hc hws
        rcases List.mem_cons.mp hc with h' | h'
        · subst h'; exact absurd hws (by simpa using hd)
        · exact (ih false).1 c h' hws
      · refine List.chain'_cons'.mpr ⟨?_, (ih false).2⟩
        intro y _
        intro hcon
        exact absurd hcon.1 (by simpa using hd)

/-- On a list already satisfying the collapse invariant, collapsing is the
identity (and skipping-mode is the identity when the head is not whitespace). -/
theorem collapseWsAux_eq_self : ∀ (l : List Char), WsOk l →
    collapseWsAux false l = l ∧
      ((∀ x, l.head? = some x → x.isWhitespace = false) → collapseWsAux true l = l) := by
  intro l
  induction l with
  | nil => intro _; exact ⟨rfl, fun _ => rfl⟩
  | cons d ds ih =>
    intro hok
    have hds : WsOk ds := ⟨fun c hc => hok.1 c (List.mem_cons_of_mem _ hc), hok.2.tail⟩
    by_cases hd : d.isWhitespace
    · have hdeq : d = ' ' := hok.1 d (List.mem_cons_self _ _) hd
      have hhead : ∀ x, ds.head? = some x → x.isWhitespace = false := by
        intro x hx
        have := List.chain'_cons'.mp hok.2
        have h2 := this.1 x hx
        by_contra hws
        exact h2 ⟨hd, by simpa using hws⟩
      constructor
      · simp only [collapseWsAux, hd, if_true]
        rw [(ih hds).2 hhead, hdeq]
        simp
      · intro hx
        have := hx d (by simp)
        rw [this] at hd
        exact absurd hd (by simp)
    · have heq : collapseWsAux false ds = ds := (ih hds).1
      constructor
      · simp only [collapseWsAux, hd, if_false, Bool.false_eq_true, heq]
      · intro _
        simp only [collapseWsAux, hd, if_false, Bool.false_eq_true, heq]

theorem head?_dropWhile_not (p : Char → Bool) :
    ∀ (l : List Char) {x : Char}, (l.dropWhile p).head? = some x → p x = false := by
  intro l
  induction l with
  | nil => intro x h; simp at h
  | cons d ds ih =>
    intro x h
    by_cases hd : p d
    · rw [List.dropWhile_cons_of_pos hd] at h
      exact ih h
    · rw [List.dropWhile_cons_of_neg hd, List.head?_cons, Option.some.injEq] at h
      subst h
      simpa using hd

theorem dropWhile_eq_self_of_head (p : Char → Bool) (l : List Char)
    (h : ∀ x, l.head? = some x → p x = false) : l.dropWhile p = l := by
  cases l with
  | nil => rfl
  | cons d ds =>
    have := h d (by simp)
    rw [List.dropWhile_cons_of_neg (by simp [this])]

theorem trimChars_head {l : List Char} {x : Char}
    (h : (trimChars l).head? = some x) : x.isWhitespace = false := by
  unfold trimChars at h
  rw [List.head?_reverse] at h
  rcases List.dropWhile_suffix (l := (l.dropWhile Char.isWhitespace).reverse)
    Char.isWhitespace with ⟨t, ht⟩
  by_cases hbe : (l.dropWhile Char.isWhitespace).reverse.dropWhile Char.isWhitespace = []
  · rw [hbe] at h; simp at h
  · have h2 : ((l.dropWhile Char.isWhitespace).reverse).getLast? = some x := by
      rw [← ht, List.getLast?_append_of_ne_nil _ hbe]
      exact h
    rw [List.getLast?_eq_head?_reverse, List.reverse_reverse] at h2
    exact head?_dropWhile_not _ _ h2

theorem trimChars_getLast {l : List Char} {x : Char}
    (h : (trimChars l).getLast? = some x) : x.isWhitespace = false := by
  unfold trimChars at h
  rw [List.getLast?_eq_head?_reverse, List.reverse_reverse] at h
  exact head?_dropWhile_not _ _ h

theorem trimChars_idem (l : List Char) : trimChars (trimChars l) = trimChars l := by
  have h1 : (trimChars l).dropWhile Char.isWhitespace = trimChars l :=
    dropWhile_eq_self_of_head _ _ (fun x hx => trimChars_head hx)
  have h2 : (trimChars l).reverse.dropWhile Char.isWhitespace = (trimChars l).reverse := by
    refine dropWhile_eq_self_of_head _ _ (fun x hx => ?_)
    rw [List.head?_reverse] at hx
    exact trimChars_getLast hx
  show ((((trimChars l).dropWhile Char.isWhitespace).reverse.dropWhile
      Char.isWhitespace)).reverse = trimChars l
  rw [h1, h2, List.reverse_reverse]

theorem mem_trimChars {l : List Char} {c : Char} (h : c ∈ trimChars l) : c ∈ l := by
  unfold trimChars at h
  rw [List.mem_reverse] at h
  have h' := (List.dropWhile_suffix (l := (l.dropWhile Char.isWhitespace).reverse)
    Char.isWhitespace).sublist.subset h
  rw [List.mem_reverse] at h'
  exact (List.dropWhile_suffix (l := l) Char.isWhitespace).sublist.subset h'

theorem wsOk_trimChars {l : List Char} (h : WsOk l) : WsOk (trimChars l) := by
  constructor
  · intro c hc hws
    exact h.1 c (mem_trimChars hc) hws
  · have hsymm : ∀ (m : List Char),
        m.Chain' (fun a b : Char => ¬(a.isWhitespace = true ∧ b.isWhitespace = true)) →
        m.reverse.Chain' (fun a b : Char => ¬(a.isWhitespace = true ∧ b.isWhitespace = true)) := by
      intro m hm
      rw [List.chain'_reverse]
      exact hm.imp (fun a b hab => fun hcon => hab ⟨hcon.2, hcon.1⟩)
    have c1 := h.2.suffix (List.dropWhile_suffix Char.isWhitespace)
    have c2 := hsymm _ c1
    have c3 := c2.suffix (List.dropWhile_suffix Char.isWhitespace)
    exact hsymm _ c3

theorem mem_normalize_chars {s : String} {c : Char}
    (hc : c ∈ (normalize_text s).data) : keepChar c = true ∧ c.toLower = c := by
  simp only [normalize_text] at hc
  have h1 := mem_trimChars hc
  rcases mem_collapseWsAux false _ h1 with h2 | h2
  · rcases List.mem_filter.mp h2 with ⟨h3, h4⟩
    rcases List.mem_map.mp h3 with ⟨d, _, hd⟩
    exact ⟨h4, by rw [← hd, toLower_toLower]⟩
  · subst h2
    exact ⟨by decide, by decide⟩

/-- C10: the text normalization used for label reuse matching and
manual-coding lookup is idempotent. -/
theorem c10_normalize_text_idempotent (s : String) :
    normalize_text (normalize_text s) = normalize_text s := by
  set y := (normalize_text s).data with hy
  have hmap : y.map Char.toLower = y := by
    conv_rhs => rw [← List.map_id y]
    exact List.map_congr_left (fun a ha => (mem_normalize_chars (hy ▸ ha)).2)
  have hfilter : y.filter keepChar = y :=
    List.filter_eq_self.mpr (fun a ha => (mem_normalize_chars (hy ▸ ha)).1)
  have hwsok : WsOk y := by
    rw [hy]
    simp only [normalize_text]
    exact wsOk_trimChars (wsOk_collapseWsAux false _)
  have hcollapse : collapseWsAux false y = y := (collapseWsAux_eq_self y hwsok).1
  have htrim : trimChars y = y := by
    rw [hy]
    simp only [normalize_text]
    exact trimChars_idem _
  show (⟨trimChars (collapseWsAux false ((y.map Char.toLower).filter keepChar))⟩ : String)
      = ⟨y⟩
  rw [hmap, hfilter, hcollapse, htrim]

/-! ## Code-string primitives -/

/-- Python string splitting on a single-character separator; splitting the
empty string yields the one-element list holding the empty string, like in
Python. -/
def splitCharList (sep : Char) : List Char → List (List Char)
  | [] => [[]]
  | c :: cs =>
    match splitCharList sep cs with
    | [] => [[]]
    | h :: t => if c = sep then [] :: h :: t else (c :: h) :: t

/-- Python `s.split(sep)` (single-character separator). -/
def pySplit (sep : Char) (s : String) : List String :=
  (splitCharList sep s.data).map (fun l => (⟨l⟩ : String))

/-- Python `sep.join(parts)`. -/
def joinSep (sep : String) : List String → String
  | [] => ""
  | [x] => x
  | x :: y :: t => x ++ sep ++ joinSep sep (y :: t)

/-- Python `str.isdigit()` (ASCII model): non-empty and all characters are
decimal digits. -/
def isDigitStr (s : String) : Bool := !s.data.isEmpty && s.data.all Char.isDigit

/-- Python `int(s)` for a digit string. -/
def natOfDigits (l : List Char) : Nat :=
  l.foldl (fun a c => 10 * a + (c.toNat - 48)) 0

/-- Python `int(s)` for a string of decimal digits (possibly padded with
surrounding whitespace, which `int` ignores). -/
def pyInt (s : String) : Nat := natOfDigits (trimChars s.data)

/-- Digit character for a value below ten. -/
def digitChar (n : Nat) : Char := Char.ofNat (48 + n)

/-- Decimal digits of a natural number, most significant first
(fuel-indexed so the definition is structural). -/
def natDigitsAux : Nat → Nat → List Char → List Char
  | 0, _, acc => acc
  | f + 1, n, acc =>
    if n < 10 then digitChar n :: acc
    else natDigitsAux f (n / 10) (digitChar (n % 10) :: acc)

/-- Decimal representation of a natural number. -/
def natRepr (n : Nat) : String := ⟨natDigitsAux (n + 1) n []⟩

/-- Python `f"{n:02d}"` (for a non-negative value): zero-pad to width two. -/
def padCode (n : Nat) : String :=
  if n < 10 then ⟨'0' :: (natRepr n).data⟩ else natRepr n

/-- Finding all decimal-digit runs in a string (the digit-run regex scan of
`process_response`); the accumulator holds the reversed current run. -/
def digitRunsAux : List Char → List Char → List (List Char)
  | [], acc => if acc.isEmpty then [] else [acc.reverse]
  | c :: cs, acc =>
    if c.isDigit then digitRunsAux cs (c :: acc)
    else if acc.isEmpty then digitRunsAux cs []
    else acc.reverse :: digitRunsAux cs []

/-- All maximal runs of decimal digits in `s` (the digit-run regex scan). -/
def digitRuns (s : String) : List (List Char) := digitRunsAux s.data []

/-- De-duplication keeping the first occurrence (`dict.fromkeys` order; also
the membership semantics of a Python `set`). -/
def dedupFirstAux {α : Type} [DecidableEq α] (seen : List α) : List α → List α
  | [] => []
  | x :: xs =>
    if x ∈ seen then dedupFirstAux seen xs else x :: dedupFirstAux (x :: seen) xs

/-- De-duplication keeping the first occurrence of each element. -/
def dedupFirst {α : Type} [DecidableEq α] (l : List α) : List α := dedupFirstAux [] l

/-- Lexicographic (code-point) strict order on character lists — the string
order Python compares with. -/
def strLtB : List Char → List Char → Bool
  | [], [] => false
  | [], _ :: _ => true
  | _ :: _, [] => false
  | a :: as, b :: bs =>
    if a.toNat < b.toNat then true
    else if b.toNat < a.toNat then false
    else strLtB as bs

/-- Non-strict lexicographic order on strings. -/
def strLeB (s t : String) : Bool := !(strLtB t.data s.data)

/-- Insertion sort on strings: `sorted` in Python (lexicographic order), used
on de-duplicated code sets. -/
def insertSorted (x : String) : List String → List String
  | [] => [x]
  | y :: ys => if strLeB x y then x :: y :: ys else y :: insertSorted x ys

/-- Python `sorted` on a list of strings. -/
def sortStr (l : List String) : List String := l.foldr insertSorted []

/-- The exclusive sentinel codes of the pipeline. -/
def exclusive_codes : List String := ["66", "77", "88", "99", "777", "888", "999"]

/-- The sentinel codes as numbers (used when computing the next free code). -/
def sentinelNats : List Nat := [66, 77, 88, 99, 777, 888, 999]

/-- The excluded-code set of `process_other_columns` (it additionally
contains `"00"`). -/
def excluded_codes_other : List String :=
  ["66", "77", "88", "99", "00", "777", "888", "999"]

/-! ### Lemmas about the primitives -/

theorem mem_dedupFirstAux {α : Type} [DecidableEq α] {x : α} :
    ∀ (seen l : List α), x ∈ dedupFirstAux seen l → x ∈ l := by
  intro seen l
  induction l generalizing seen with
  | nil => intro h; exact absurd h (by simp [dedupFirstAux])
  | cons y ys ih =>
    intro h
    by_cases hy : y ∈ seen
    · simp only [dedupFirstAux, if_pos hy] at h
      exact List.mem_cons_of_mem _ (ih seen h)
    · simp only [dedupFirstAux, if_neg hy] at h
      rcases List.mem_cons.mp h with h' | h'
      · exact h' ▸ List.mem_cons_self _ _
      · exact List.mem_cons_of_mem _ (ih _ h')

theorem dedupFirstAux_disjoint_nodup {α : Type} [DecidableEq α] :
    ∀ (seen l : List α), (∀ x ∈ dedupFirstAux seen l, x ∉ seen) ∧
      (dedupFirstAux seen l).Nodup := by
  intro seen l
  induction l generalizing seen with
  | nil => exact ⟨by simp [dedupFirstAux], by simp [dedupFirstAux]⟩
  | cons y ys ih =>
    by_cases hy : y ∈ seen
    · simp only [dedupFirstAux, if_pos hy]
      exact ih seen
    · simp only [dedupFirstAux, if_neg hy]
      refine ⟨?_, ?_⟩
      · intro x hx
        rcases List.mem_cons.mp hx with h' | h'
        · exact h' ▸ hy
        · intro hxs
          exact (ih (y :: seen)).1 x h' (List.mem_cons_of_mem _ hxs)
      · refine List.nodup_cons.mpr ⟨?_, (ih (y :: seen)).2⟩
        intro hmem
        exact (ih (y :: seen)).1 y hmem (List.mem_cons_self _ _)

theorem nodup_dedupFirst {α : Type} [DecidableEq α] (l : List α) :
    (dedupFirst l).Nodup := (dedupFirstAux_disjoint_nodup [] l).2

theorem mem_dedupFirst {α : Type} [DecidableEq α] {x : α} {l : List α}
    (h : x ∈ dedupFirst l) : x ∈ l := mem_dedupFirstAux [] l h

theorem digitChar_isDigit {n : Nat} (h : n < 10) : (digitChar n).isDigit = true := by
  interval_cases n <;> decide

theorem natDigitsAux_all_digits : ∀ (f n : Nat) (acc : List Char),
    (∀ c ∈ acc, c.isDigit = true) → ∀ c ∈ natDigitsAux f n acc, c.isDigit = true := by
  intro f
  induction f with
  | zero => intro n acc hacc c hc; exact hacc c hc
  | succ f ih =>
    intro n acc hacc c hc
    by_cases hn : n < 10
    · simp only [natDigitsAux, if_pos hn] at hc
      rcases List.mem_cons.mp hc with h' | h'
      · exact h' ▸ digitChar_isDigit hn
      · exact hacc c h'
    · simp only [natDigitsAux, if_neg hn] at hc
      refine ih (n / 10) _ ?_ c hc
      intro d hd
      rcases List.mem_cons.mp hd with h' | h'
      · exact h' ▸ digitChar_isDigit (Nat.mod_lt _ (by omega))
      · exact hacc d h'

theorem natDigitsAux_length_mono : ∀ (f n : Nat) (acc : List Char),
    acc.length ≤ (natDigitsAux f n acc).length := by
  intro f
  induction f with
  | zero => intro n acc; simp [natDigitsAux]
  | succ f ih =>
    intro n acc
    by_cases hn : n < 10
    · simp only [natDigitsAux, if_pos hn, List.length_cons]
      omega
    · simp only [natDigitsAux, if_neg hn]
      have := ih (n / 10) (digitChar (n % 10) :: acc)
      simp only [List.length_cons] at this
      omega

theorem padCode_all_digits (n : Nat) : ∀ c ∈ (padCode n).data, c.isDigit = true := by
  intro c hc
  unfold padCode at hc
  by_cases hn : n < 10
  · rw [if_pos hn] at hc
    rcases List.mem_cons.mp hc with h' | h'
    · subst h'; decide
    · exact natDigitsAux_all_digits _ _ _ (by simp) c h'
  · rw [if_neg hn] at hc
    exact natDigitsAux_all_digits _ _ _ (by simp) c hc

theorem padCode_length (n : Nat) : 2 ≤ (padCode n).data.length := by
  unfold padCode
  by_cases hn : n < 10
  · rw [if_pos hn]
    simp only [List.length_cons]
    have : 1 ≤ (natRepr n).data.length := by
      show 1 ≤ (natDigitsAux (n + 1) n []).length
      simp only [natDigitsAux, if_pos hn, List.length_cons, List.length_nil]
      omega
    omega
  · rw [if_neg hn]
    show 2 ≤ (natDigitsAux (n + 1) n []).length
    rcases n with _ | m
    · omega
    · simp only [natDigitsAux, if_neg hn]
      by_cases hq : (m + 1) / 10 < 10
      · simp only [natDigitsAux, if_pos hq, List.length_cons, List.length_nil]
        omega
      · simp only [natDigitsAux, if_neg hq]
        have := natDigitsAux_length_mono m ((m + 1) / 10 / 10)
          (digitChar ((m + 1) / 10 % 10) :: [digitChar ((m + 1) % 10)])
        simp only [List.length_cons, List.length_singleton] at this
        omega

/-! ## Completion gateways (`request_gemini` in `gemini_client.py`,
`request_openai` in `logic.py`)

An attempt script lists, for each loop iteration, what the provider call
would do: raise an exception, or return a reply.  For Gemini the reply
carries its text (`""` models a reply whose text is empty or absent); for
OpenAI a successful call returns a response object whose message content is
the carried string. -/

/-- One attempt against the Gemini API: an exception, or a reply whose text
is the given string (`""` for an empty or absent text). -/
inductive GeminiAttempt : Type
  | err : GeminiAttempt
  | ok : String → GeminiAttempt
deriving DecidableEq, Repr

/-- The retry loop of `request_gemini`: the fuel is the remaining number of
loop iterations (`max_retries` at the start).  A reply with empty text makes
the function return `None` at once; an exception consumes one attempt. -/
def request_gemini_loop : Nat → List GeminiAttempt → Option String
  | 0, _ => none
  | _ + 1, [] => none
  | _ + 1, GeminiAttempt.ok t :: _ => if t = "" then none else some t
  | n + 1, GeminiAttempt.err :: rest => request_gemini_loop n rest

/-- The function `request_gemini` with its default `max_retries = 3`. -/
def request_gemini (script : List GeminiAttempt) : Option String :=
  request_gemini_loop 3 script

/-- The retry loop of `request_openai`: a successful call returns the
response (whose content may be any string, including `""`); an exception
consumes one attempt, and after `max_retries` failed attempts the function
returns `None`. -/
def request_openai_loop : Nat → List (Option String) → Option String
  | 0, _ => none
  | _ + 1, [] => none
  | _ + 1, some t :: _ => some t
  | n + 1, none :: rest => request_openai_loop n rest

/-- The function `request_openai` with its default `max_retries = 5`. -/
def request_openai (script : List (Option String)) : Option String :=
  request_openai_loop 5 script

/-! ## `clean_codes` (reviewer.py / gemini_reviewer.py) -/

/-- The first steps of `clean_codes`: strip brackets and quotes, split on
`;`, de-duplicate keeping first occurrences (`dict.fromkeys`). -/
def clean_codes_unique (codes : String) : List String :=
  let replaced := codes.data.filter
    (fun c => !(c = '[' || c = ']' || c = Char.ofNat 39))
  dedupFirst ((splitCharList ';' replaced).map (fun l => (⟨l⟩ : String)))

/-- The remaining steps of `clean_codes` after de-duplication: drop the
two-digit sentinel codes unless there is exactly one distinct code, keep the
digit strings and zero-pad them. -/
def clean_codes_list (codes : String) : List String :=
  let uniqueCodes := clean_codes_unique codes
  let priorityCodes := ["99", "88", "77", "66"]
  let filtered := uniqueCodes.filter
    (fun c => !(priorityCodes.contains c) || uniqueCodes.length = 1)
  (filtered.filter (fun c => isDigitStr (pyStrip c))).map
    (fun c => padCode (natOfDigits (pyStrip c).data))

/-- The function `clean_codes` from `reviewer.py` and `gemini_reviewer.py`
(the non-`NaN` branch; a `NaN` cell is returned unchanged by the Python code). -/
def clean_codes (codes : String) : String := joinSep ";" (clean_codes_list codes)

/-! ## The open-ended merge rule (`process_other_columns`, per-cell body) -/

/-- The cleaned code set of a cell value in `process_other_columns`: the
set of semicolon-separated parts when the value is non-empty (the empty set
otherwise), keeping the digit strings zero-padded.  A Python set is modelled as its first-occurrence de-duplication;
every use below is order-insensitive or sorts first. -/
def cell_code_set (v : String) : List String :=
  let parts := if v ≠ "" then pySplit ';' v else []
  dedupFirst ((parts.filter (fun c => isDigitStr c)).map
    (fun c => padCode (natOfDigits c.data)))

/-- The merge rule of `process_other_columns` (`logic.py` lines 669-697):
given the current content of the base column cell and the freshly assigned
codes, compute the value written back to the base column. -/
def merge_other_codes (current assigned : String) : String :=
  let currentSet := cell_code_set (pyStrip current)
  let newSet := cell_code_set assigned
  let combined := dedupFirst (currentSet ++ newSet)
  let nonExcluded := combined.filter (fun c => !(excluded_codes_other.contains c))
  let combined := if nonExcluded ≠ [] then nonExcluded else combined
  let finalCodes :=
    if "77" ∈ currentSet then
      let currentRest := currentSet.filter (fun c => c ≠ "77")
      let replacement := newSet.filter (fun c => c ∉ currentRest)
      if replacement ≠ [] then
        let replacementStr := "[" ++ joinSep ";" (sortStr replacement) ++ "]"
        joinSep ";" (sortStr currentRest) ++
          (if currentRest ≠ [] then ";" ++ replacementStr else replacementStr)
      else joinSep ";" (sortStr currentRest)
    else joinSep ";" (sortStr combined)
  let finalList := pySplit ';' finalCodes
  let finalFiltered := finalList.filter (fun c => !(excluded_codes_other.contains c))
  joinSep ";" (if finalFiltered ≠ [] then finalFiltered else finalList)

/-! ## Codebook rows and the classifier / label minter (`logic.py`) -/

/-- A row of the codebook table (`codes_df`): the columns used by the
classifier and the minter. -/
structure CodeRow : Type where
  idCampo : String
  cod : String
  label : String
  formQuestion : String
  questionName : String
deriving DecidableEq, Repr

/-- The labels recorded in the codebook for a question, lower-cased
(the codebook rows whose question-name column equals the question, their
label column lower-cased). -/
def question_labels_lower (codebook : List CodeRow) (question : String) : List String :=
  (codebook.filter (fun r => r.questionName = question)).map (fun r => lowerStr r.label)

/-- The codes recorded in the codebook for a question. -/
def question_codes (codebook : List CodeRow) (question : String) : List String :=
  (codebook.filter (fun r => r.questionName = question)).map (fun r => r.cod)

/-- Whether the question is single-response: the question text contains the
marker (respuesta única), or the per-answer label limit is one. -/
def is_single_response (question : String) (maxLabels : Nat) : Bool :=
  decide ("(respuesta única)".data <:+: question.data) || maxLabels = 1

/-- The function `assign_labels_to_response`, given the gateway outcome for its single
completion call: on `None` return the uncodeable sentinel `"77"`, otherwise
strip the reply and, in single-response mode, keep only the text before the
first `;`. -/
def assign_labels_to_response (gatewayReply : Option String)
    (isSingleResponse : Bool) : String :=
  match gatewayReply with
  | none => "77"
  | some content =>
    let assigned := pyStrip content
    if isSingleResponse then pyStrip ((pySplit ';' assigned).headD "")
    else assigned

/-- The helper `filter_exclusive_codes` from `logic.py` (defined there, not called by
the pipeline): keep the non-sentinel codes, else the first code, else
nothing. -/
def filter_exclusive_codes (assignedCodesList : List String) : List String :=
  let nonExclusive := assignedCodesList.filter
    (fun code => !(exclusive_codes.contains code))
  if nonExclusive ≠ [] then nonExclusive
  else
    match assignedCodesList with
    | [] => []
    | c :: _ => [c]

/-- The `while next_code in {66, 77, 88, 99, 777, 888, 999}: next_code += 1`
loop of `get_next_valid_code` (fuel-indexed; as no two sentinel values are
consecutive, any fuel of at least two iterations computes the result of
the loop). -/
def skip_sentinels : Nat → Nat → Nat
  | 0, n => n
  | f + 1, n => if sentinelNats.contains n then skip_sentinels f (n + 1) else n

/-- The function `get_next_valid_code`: maximum existing non-sentinel numeric code plus
one, skipping sentinel values, zero-padded. -/
def get_next_valid_code (existingCodes : List String) : String :=
  let validCodes := ((existingCodes.filter
    (fun c => isDigitStr c && !(sentinelNats.contains (natOfDigits c.data)))).map
      (fun c => natOfDigits c.data))
  let nextCode := validCodes.foldl Nat.max 0 + 1
  padCode (skip_sentinels 1000 nextCode)

/-- The function `save_new_label`: append a codebook row for the question (copying the
field id and the form-question text of its first row); fails when the
question has no row. -/
def save_new_label (codebook : List CodeRow) (question label newCode : String) :
    List CodeRow × Bool :=
  match codebook.find? (fun r => r.questionName = question) with
  | none => (codebook, false)
  | some row =>
    (codebook ++ [⟨row.idCampo, newCode, label, row.formQuestion, question⟩], true)

/-- The function `create_new_labels`, given the gateway outcome for its (single)
completion call: first try an exact normalized-text match of the response
against the available labels plus the codebook labels of the question; on a
match
within the available labels, reuse that label without a model call.
Otherwise take the gateway reply: `None` gives `None`; a non-empty reply
without parentheses whose normalization is not an already-known label is the
new label, anything else gives `None`. -/
def create_new_labels (response : String) (availableLabels : List String)
    (codebookLabelsLower : List String) (gatewayReply : Option String) :
    Option String :=
  let responseStr := lowerStr (pyStrip response)
  let allExistingLabels := availableLabels ++ codebookLabelsLower
  let normalizedLabels := allExistingLabels.map normalize_text
  let normalizedResponse := normalize_text responseStr
  let reuse :=
    if normalizedResponse ∈ normalizedLabels then
      let idx := normalizedLabels.indexOf normalizedResponse
      if idx < availableLabels.length then some (availableLabels.getD idx "")
      else none
    else none
  match reuse with
  | some lbl => some lbl
  | none =>
    match gatewayReply with
    | none => none
    | some reply =>
      let result := pyStrip reply
      if result ≠ "" ∧ '(' ∉ result.data ∧ ')' ∉ result.data ∧
          normalize_text result ∉ normalizedLabels then some result
      else none

/-! ## `process_response` (`logic.py`) -/

/-- The final formatting step of `process_response`:
`re.findall(r'\d+', ...)`, zero-pad each run, de-duplicate (a Python
`list(set(...))`; first-occurrence order is chosen here, membership is what
the theorems use), and in single-response mode keep at most one code. -/
def finalize_assigned_codes (assigned : String) (isSingle : Bool) : List String :=
  let padded := (digitRuns assigned).map (fun r => padCode (natOfDigits r))
  let deduped := dedupFirst padded
  if isSingle then deduped.take 1 else deduped

/-- The label-decision core of `process_response`: everything between the
classifier reply and the final formatting.  `assigned0` is the classifier
result, `mintReply` the gateway outcome of the minting call if one is made.
Returns the assigned code string, the updated new-label counter and the
updated codebook. -/
def process_response_core (question responseStr : String)
    (filteredLabels : List String) (count maxNew : Nat)
    (codebook : List CodeRow) (assigned0 : String) (mintReply : Option String) :
    String × Nat × List CodeRow :=
  if assigned0 = "NEW_LABEL_NEEDED" ∨ assigned0 = "" then
    if maxNew ≤ count then ("77", count, codebook)
    else
      match create_new_labels responseStr filteredLabels
          (question_labels_lower codebook question) mintReply with
      | none => ("77", count, codebook)
      | some newLabel =>
        match codebook.find? (fun r => r.questionName = question ∧
            lowerStr r.label = lowerStr newLabel) with
        | some row =>
          (if isDigitStr row.cod then padCode (natOfDigits row.cod.data)
            else row.cod, count, codebook)
        | none =>
          let newCode := get_next_valid_code (question_codes codebook question)
          let saved := save_new_label codebook question newLabel newCode
          if saved.2 then (newCode, count + 1, saved.1)
          else ("77", count, saved.1)
  else (assigned0, count, codebook)

/-- The function `process_response` from `logic.py`, with the two possible completion
calls replaced by their gateway outcomes (`classifyReply` for
`assign_labels_to_response`, `mintReply` for `create_new_labels`). -/
def process_response (question response : String)
    (availableLabels availableCodes : List String) (count maxNew : Nat)
    (codebook : List CodeRow) (classifyReply mintReply : Option String)
    (maxLabels : Nat) : String × Nat × List CodeRow :=
  let responseStr := lowerStr (pyStrip response)
  let isSingle := is_single_response question maxLabels
  let filteredPairs := (availableLabels.zip availableCodes).filter
    (fun p => !(exclusive_codes.contains p.2))
  let filteredLabels := filteredPairs.map Prod.fst
  let assigned0 := assign_labels_to_response classifyReply isSingle
  let core := process_response_core question responseStr filteredLabels count
    maxNew codebook assigned0 mintReply
  (joinSep ";" (finalize_assigned_codes core.1 isSingle), core.2.1, core.2.2)

/-- One scripted response inside one column: the classifier inputs together
with the gateway outcomes of the at most two completion calls made for it. -/
structure RespStep : Type where
  question : String
  response : String
  availableLabels : List String
  availableCodes : List String
  classifyReply : Option String
  mintReply : Option String
  maxLabels : Nat

/-- The per-column fold of `process_responses` over the scripted responses of
one column: thread the per-column new-label counter
(in the source, the per-column entry of the counters dictionary of
`limit_labels`) and the codebook through
`process_response`. -/
def process_column_responses :
    List RespStep → Nat → Nat → List CodeRow → Nat × List CodeRow
  | [], count, _, codebook => (count, codebook)
  | s :: rest, count, maxNew, codebook =>
    let r := process_response s.question s.response s.availableLabels
      s.availableCodes count maxNew codebook s.classifyReply s.mintReply
      s.maxLabels
    process_column_responses rest r.2.1 maxNew r.2.2

/-! ## Counter and formatting lemmas for `process_response` -/

theorem process_response_core_count (question responseStr : String)
    (filteredLabels : List String) (count maxNew : Nat)
    (codebook : List CodeRow) (assigned0 : String) (mintReply : Option String) :
    (process_response_core question responseStr filteredLabels count maxNew
        codebook assigned0 mintReply).2.1 = count ∨
      ((process_response_core question responseStr filteredLabels count maxNew
        codebook assigned0 mintReply).2.1 = count + 1 ∧ count < maxNew) := by
  unfold process_response_core
  split
  · split
    · left; rfl
    · split
      · left; rfl
      · split
        · left; rfl
        · dsimp only
          split
          · right; refine ⟨rfl, ?_⟩; omega
          · left; rfl
  · left; rfl

theorem process_response_count_le (question response : String)
    (availableLabels availableCodes : List String) (count maxNew : Nat)
    (codebook : List CodeRow) (classifyReply mintReply : Option String)
    (maxLabels : Nat) (h : count ≤ maxNew) :
    (process_response question response availableLabels availableCodes count
      maxNew codebook classifyReply mintReply maxLabels).2.1 ≤ maxNew := by
  have hc := process_response_core_count question (lowerStr (pyStrip response))
    (((availableLabels.zip availableCodes).filter
      (fun p => !(exclusive_codes.contains p.2))).map Prod.fst) count maxNew
    codebook
    (assign_labels_to_response classifyReply
      (is_single_response question maxLabels)) mintReply
  unfold process_response
  rcases hc with h' | ⟨h', hlt⟩ <;> dsimp only <;> omega

theorem process_column_responses_le (steps : List RespStep) :
    ∀ (count maxNew : Nat) (codebook : List CodeRow), count ≤ maxNew →
      (process_column_responses steps count maxNew codebook).1 ≤ maxNew := by
  induction steps with
  | nil => intro count maxNew codebook h; simpa [process_column_responses]
  | cons s rest ih =>
    intro count maxNew codebook h
    simp only [process_column_responses]
    exact ih _ _ _ (process_response_count_le s.question s.response
      s.availableLabels s.availableCodes count maxNew codebook s.classifyReply
      s.mintReply s.maxLabels h)

theorem process_response_at_max (question response : String)
    (availableLabels availableCodes : List String) (maxNew : Nat)
    (codebook : List CodeRow) (classifyReply mintReply : Option String)
    (maxLabels : Nat)
    (hnl : assign_labels_to_response classifyReply
        (is_single_response question maxLabels) = "NEW_LABEL_NEEDED" ∨
      assign_labels_to_response classifyReply
        (is_single_response question maxLabels) = "") :
    process_response question response availableLabels availableCodes maxNew
      maxNew codebook classifyReply mintReply maxLabels
      = ("77", maxNew, codebook) := by
  unfold process_response process_response_core
  dsimp only
  rw [if_pos hnl, if_pos (le_refl maxNew)]
  cases hb : is_single_response question maxLabels <;> rfl

/-- C6: for every column and every sequence of classified responses, the
per-column new-label counter never exceeds the configured maximum number of
new labels, and once the counter equals the maximum, every response whose
classification yields the new-label-needed outcome (the sentinel reply
`NEW_LABEL_NEEDED` or an empty reply) is assigned the sentinel `77` with the
counter and codebook unchanged, instead of minting a label. -/
theorem c6_label_budget (steps : List RespStep) (count maxNew : Nat)
    (codebook : List CodeRow) (h0 : count ≤ maxNew) :
    (process_column_responses steps count maxNew codebook).1 ≤ maxNew ∧
    (∀ (question response : String) (availableLabels availableCodes : List String)
      (cb : List CodeRow) (classifyReply mintReply : Option String) (maxLabels : Nat),
      (assign_labels_to_response classifyReply
          (is_single_response question maxLabels) = "NEW_LABEL_NEEDED" ∨
        assign_labels_to_response classifyReply
          (is_single_response question maxLabels) = "") →
      process_response question response availableLabels availableCodes maxNew
        maxNew cb classifyReply mintReply maxLabels = ("77", maxNew, cb)) := by
  constructor
  · exact process_column_responses_le steps count maxNew codebook h0
  · intro question response al ac cb classifyReply mintReply maxLabels hnl
    exact process_response_at_max question response al ac maxNew cb
      classifyReply mintReply maxLabels hnl

theorem c6_label_budget_witness :
    (process_column_responses [] 0 2 []).1 ≤ 2 ∧
    process_response "q" "papitas" ["Chips"] ["01"] 2 2 []
      (some "NEW_LABEL_NEEDED") (some "Papas fritas") 6 = ("77", 2, []) := by
  have h := c6_label_budget [] 0 2 [] (by decide)
  exact ⟨h.1, h.2 "q" "papitas" ["Chips"] ["01"] [] (some "NEW_LABEL_NEEDED")
    (some "Papas fritas") 6 (by decide)⟩

/-! ## C7: gateway failure degrades gracefully -/

theorem request_openai_exhausted (k : Nat) :
    request_openai_loop k (List.replicate k none) = none := by
  induction k with
  | zero => rfl
  | succ k ih => simpa [List.replicate, request_openai_loop] using ih

theorem create_new_labels_none (response : String)
    (availableLabels codebookLabelsLower : List String)
    (h : normalize_text (lowerStr (pyStrip response)) ∉
      (availableLabels ++ codebookLabelsLower).map normalize_text) :
    create_new_labels response availableLabels codebookLabelsLower none = none := by
  unfold create_new_labels
  dsimp only
  rw [if_neg h]

/-- C7: when the completion gateway exhausts its retry bound and returns
`None`, no exception reaches the caller: the classifier
(`assign_labels_to_response`) returns the sentinel `"77"`, the label minter
(`create_new_labels`, when its completion call is reached, i.e. when the
response does not match an existing label by normalized text) returns
`None`, and `process_response` under a failed classification call returns
`"77"` with the counter and the codebook unchanged (no codebook row is
appended). -/
theorem c7_gateway_failure_degrades :
    (∀ k : Nat, request_openai_loop k (List.replicate k none) = none) ∧
    (∀ single : Bool, assign_labels_to_response none single = "77") ∧
    (∀ (response : String) (availableLabels codebookLabelsLower : List String),
      normalize_text (lowerStr (pyStrip response)) ∉
        (availableLabels ++ codebookLabelsLower).map normalize_text →
      create_new_labels response availableLabels codebookLabelsLower none = none) ∧
    (∀ (question response : String) (availableLabels availableCodes : List String)
      (count maxNew : Nat) (codebook : List CodeRow) (maxLabels : Nat),
      process_response question response availableLabels availableCodes count
        maxNew codebook none none maxLabels = ("77", count, codebook)) := by
  refine ⟨request_openai_exhausted, ?_, ?_, ?_⟩
  · intro single; cases single <;> rfl
  · intro response al ql h
    exact create_new_labels_none response al ql h
  · intro question response al ac count maxNew cb maxLabels
    unfold process_response process_response_core
    dsimp only
    have h77 : assign_labels_to_response none
        (is_single_response question maxLabels) = "77" := rfl
    rw [h77, if_neg (by decide)]
    cases hb : is_single_response question maxLabels <;> rfl

theorem c7_gateway_failure_degrades_witness :
    request_openai_loop 5 (List.replicate 5 none) = none ∧
    assign_labels_to_response none false = "77" ∧
    create_new_labels "papitas" ["Chips"] ["fruta"] none = none ∧
    process_response "q" "papitas" ["Chips"] ["01"] 0 8 [] none none 6
      = ("77", 0, []) := by
  have h := c7_gateway_failure_degrades
  exact ⟨h.1 5, h.2.1 false, h.2.2.1 "papitas" ["Chips"] ["fruta"] (by decide),
    h.2.2.2 "q" "papitas" ["Chips"] ["01"] 0 8 [] 6⟩

/-! ## C2: shape of persisted assignments -/

theorem finalize_assigned_codes_spec (assigned : String) (b : Bool) :
    (finalize_assigned_codes assigned b).Nodup ∧
    ∀ c ∈ finalize_assigned_codes assigned b,
      (∀ ch ∈ c.data, ch.isDigit = true) ∧ 2 ≤ c.data.length := by
  unfold finalize_assigned_codes
  dsimp only
  constructor
  · cases b with
    | true =>
      simp only [if_true]
      exact (nodup_dedupFirst _).sublist (List.take_sublist _ _)
    | false =>
      simp only [Bool.false_eq_true, if_false]
      exact nodup_dedupFirst _
  · intro c hc
    have hmem : c ∈ dedupFirst ((digitRuns assigned).map
        (fun r => padCode (natOfDigits r))) := by
      cases b with
      | true => exact List.take_subset _ _ (by simpa using hc)
      | false => simpa using hc
    have hmem2 := mem_dedupFirst hmem
    rcases List.mem_map.mp hmem2 with ⟨r, _, hr⟩
    subst hr
    exact ⟨padCode_all_digits _, padCode_length _⟩

/-- C2 (counterexample): a model reply that combines the exclusive sentinel
`77` with the substantive code `01` is persisted as-is by
`process_response` — no exclusivity filtering takes place. -/
theorem c2_counterexample :
    (process_response "q" "r" ["a", "b"] ["01", "02"] 0 8 []
      (some "01;77") none 6).1 = "01;77" ∧
    "77" ∈ pySplit ';' "01;77" ∧ "01" ∈ pySplit ';' "01;77" ∧
    "77" ∈ exclusive_codes ∧ "01" ∉ exclusive_codes := by decide

/-- C2 (amended): every assignment persisted by `process_response` is a
semicolon-joined list of distinct zero-padded numeric code strings of at
least two digits; exclusivity of the sentinel codes is not enforced by this
code path (see the counterexample), and `filter_exclusive_codes` is never
applied to it. -/
theorem c2_assignment_shape (question response : String)
    (availableLabels availableCodes : List String) (count maxNew : Nat)
    (codebook : List CodeRow) (classifyReply mintReply : Option String)
    (maxLabels : Nat) :
    ∃ codes : List String,
      (process_response question response availableLabels availableCodes count
        maxNew codebook classifyReply mintReply maxLabels).1
        = joinSep ";" codes ∧
      codes.Nodup ∧
      ∀ c ∈ codes, (∀ ch ∈ c.data, ch.isDigit = true) ∧ 2 ≤ c.data.length := by
  unfold process_response
  dsimp only
  exact ⟨_, rfl, (finalize_assigned_codes_spec _ _).1,
    (finalize_assigned_codes_spec _ _).2⟩

/-! ## C9: reviewer normalization of existing assignments -/

/-- C9 (counterexample): an assignment consisting only of the two distinct
sentinel codes `77` and `99` is reduced by `clean_codes` to the empty
string, not to a single sentinel. -/
theorem c9_counterexample :
    clean_codes_unique "77;99" = ["77", "99"] ∧
    clean_codes "77;99" = "" := by decide

/-- C9 (amended): `clean_codes` strips brackets and quotes and removes
duplicate raw codes (the de-duplicated list is duplicate-free and every
emitted code is a plain digit string); an assignment with exactly one
distinct code is kept (zero-padded) even when it is a sentinel; but when two
or more distinct codes remain and all of them are two-digit sentinels, all
are dropped and the result is the empty string (see the counterexample). -/
theorem c9_clean_codes_shape (codes : String) :
    (clean_codes_unique codes).Nodup ∧
    (∀ c ∈ clean_codes_list codes, ∀ ch ∈ c.data, ch.isDigit = true) ∧
    (∀ c : String, clean_codes_unique codes = [c] →
      isDigitStr (pyStrip c) = true →
      clean_codes codes = padCode (natOfDigits (pyStrip c).data)) := by
  refine ⟨nodup_dedupFirst _, ?_, ?_⟩
  · intro c hc ch hch
    unfold clean_codes_list at hc
    dsimp only at hc
    rcases List.mem_map.mp hc with ⟨x, _, hx⟩
    subst hx
    exact padCode_all_digits _ ch hch
  · intro c h1 h2
    unfold clean_codes clean_codes_list
    dsimp only
    rw [h1]
    simp [h2, joinSep]

theorem c9_clean_codes_shape_witness :
    (clean_codes_unique "[77]").Nodup ∧
    (∀ c ∈ clean_codes_list "[77]", ∀ ch ∈ c.data, ch.isDigit = true) ∧
    clean_codes "[77]" = padCode (natOfDigits (pyStrip "77").data) := by
  have h := c9_clean_codes_shape "[77]"
  exact ⟨h.1, h.2.1, h.2.2 "77" (by decide) (by decide)⟩

/-! ## C1: the open-ended merge of a bare `77` with a new code -/

/-- C1 (counterexample): a cell currently holding exactly `77` merged with
the freshly classified `{02}` is written back as the bracketed group
`"[02]"`, not as the plain `"02"`. -/
theorem c1_counterexample :
    merge_other_codes "77" "02" = "[02]" ∧ merge_other_codes "77" "02" ≠ "02" := by
  decide

/-- C1 (amended): for any cell whose current code set is exactly `{77}` and
whose new classification result is exactly `{02}`, the merged value written
back to the base column is `"[02]"`: the sentinel `77` is replaced, and the
replacement codes are wrapped in a bracket group even though the current set
becomes empty after removing `77`. -/
theorem c1_merge_77_replacement (current assigned : String)
    (h1 : cell_code_set (pyStrip current) = ["77"])
    (h2 : cell_code_set assigned = ["02"]) :
    merge_other_codes current assigned = "[02]" := by
  unfold merge_other_codes
  dsimp only
  rw [h1, h2]
  decide

theorem c1_merge_77_replacement_witness :
    cell_code_set (pyStrip "77") = ["77"] ∧ cell_code_set "02" = ["02"] ∧
    merge_other_codes "77" "02" = "[02]" :=
  ⟨by decide, by decide, c1_merge_77_replacement "77" "02" (by decide) (by decide)⟩

/-! ## C8: empty model replies at the gateways -/

/-- C8 (counterexample): in the Gemini gateway an empty-text reply on the
first attempt makes the whole call return `None` immediately — the second,
successful attempt is never used, so the gateway does **not** go on to the
next retry; and the OpenAI gateway returns a reply with empty content to the
caller as a success. -/
theorem c8_counterexample :
    request_gemini [GeminiAttempt.ok "", GeminiAttempt.ok "42"] = none ∧
    request_openai [some ""] = some "" := by decide

/-- C8 (amended): a Gemini reply whose text is empty or absent is never
returned as a success, but it aborts the whole call (`None`) instead of
consuming a single retry; the OpenAI gateway returns the first successful
response object to the caller whatever its content (its retries happen only
on thrown exceptions), and a non-empty Gemini reply is returned as success. -/
theorem c8_empty_reply_behaviour :
    (∀ (k : Nat) (rest : List GeminiAttempt) (n : Nat),
      request_gemini_loop n
        (List.replicate k GeminiAttempt.err ++ GeminiAttempt.ok "" :: rest) = none) ∧
    (∀ (t : String) (rest : List (Option String)) (n : Nat),
      request_openai_loop (n + 1) (some t :: rest) = some t) ∧
    (∀ (t : String) (rest : List GeminiAttempt) (n : Nat), t ≠ "" →
      request_gemini_loop (n + 1) (GeminiAttempt.ok t :: rest) = some t) := by
  refine ⟨?_, ?_, ?_⟩
  · intro k
    induction k with
    | zero =>
      intro rest n
      cases n with
      | zero => rfl
      | succ n => simp [request_gemini_loop]
    | succ k ih =>
      intro rest n
      cases n with
      | zero => rfl
      | succ n =>
        simpa [List.replicate, request_gemini_loop] using ih rest n
  · intro t rest n; rfl
  · intro t rest n ht
    simp [request_gemini_loop, ht]

theorem c8_empty_reply_behaviour_witness :
    request_gemini_loop 3 [GeminiAttempt.err, GeminiAttempt.ok "", GeminiAttempt.ok "99"] = none ∧
    request_openai_loop 5 [some "", some "01"] = some "" ∧
    request_gemini_loop 3 [GeminiAttempt.ok "01"] = some "01" := by
  have h := c8_empty_reply_behaviour
  exact ⟨h.1 1 [GeminiAttempt.ok "99"] 3, h.2.1 "" [some "01"] 4,
    h.2.2 "01" [] 2 (by decide)⟩

/-! ## Column pipeline (`process_responses`, closed columns)

A closed response column is modelled as a list of rows, each holding the
response cell (`None` for `NaN`) and the sibling code-column cell.  The call
to `process_response` for one unique response value is abstracted by an
oracle `response → codebook → assigned codes × codebook`; each oracle
invocation stands for at least one completion call, so the invocation count
bounds the model calls from below (zero invocations means zero model
calls). -/

/-- One row of the response table restricted to one closed column. -/
structure Row : Type where
  resp : Option String
  code : String
deriving DecidableEq, Repr

/-- The pre-normalization of a code column: split each cell on semicolons,
keep the digit tokens zero-padded to two digits, re-join; a `NaN` cell maps
to `""`. -/
def normalize_code_cell (s : String) : String :=
  joinSep ";" (((pySplit ';' s).filter (fun c => isDigitStr (pyStrip c))).map
    (fun c => padCode (natOfDigits (pyStrip c).data)))

/-- The unique response values of the column (drop nulls, keep first
occurrences of the distinct values). -/
def unique_responses (table : List Row) : List String :=
  dedupFirst (table.filterMap (fun row => row.resp))

/-- The already-coded test of `process_responses`: some row sharing this
response text has a non-empty code cell. -/
def has_code (table : List Row) (r : String) : Bool :=
  table.any (fun row => row.resp = some r && pyStrip row.code ≠ "")

/-- Broadcast an assigned value to every row sharing the response text
(`responses_df.loc[mask, code_column] = assigned_codes`). -/
def write_code (table : List Row) (r v : String) : List Row :=
  table.map (fun row => if row.resp = some r then { row with code := v } else row)

/-- The loop of `process_responses` over the unique responses of one closed
column: skip already-coded values; a pending one-shot skip directive
(`skip_first_uncoded`) assigns the first uncoded value the hardcoded `"99"`
without an oracle call and clears itself; otherwise classify through the
oracle.  Returns the table, the codebook, the number of oracle invocations
and the final directive flag. -/
def process_closed_aux (oracle : String → List CodeRow → String × List CodeRow) :
    List String → List Row → List CodeRow → Bool →
    List Row × List CodeRow × Nat × Bool
  | [], table, codebook, skip => (table, codebook, 0, skip)
  | r :: rest, table, codebook, skip =>
    if has_code table r then process_closed_aux oracle rest table codebook skip
    else if skip then
      process_closed_aux oracle rest (write_code table r "99") codebook false
    else
      let res := oracle r codebook
      let next := process_closed_aux oracle rest (write_code table r res.1) res.2 false
      (next.1, next.2.1, next.2.2.1 + 1, next.2.2.2)

/-- Processing of one closed column: first normalize the code column, then
run the unique-response loop. -/
def process_closed_column (oracle : String → List CodeRow → String × List CodeRow)
    (table : List Row) (codebook : List CodeRow) (skip : Bool) :
    List Row × List CodeRow × Nat × Bool :=
  let t0 := table.map (fun row => { row with code := normalize_code_cell row.code })
  process_closed_aux oracle (unique_responses t0) t0 codebook skip

/-! ## Open-ended columns (`process_other_columns`) -/

/-- One row of the response table restricted to one open-ended column: the
`_OTRO`/`_OTRA` text cell and the base column it merges into. -/
structure ORow : Type where
  otro : Option String
  base : String
deriving DecidableEq, Repr

/-- The per-cell body of `process_other_columns`: classify the cell text
against every known question (one oracle invocation per question, each
standing for at least one completion call) and merge each result into the
base cell. -/
def process_other_cell (oracle : String → String → List CodeRow → String × List CodeRow)
    (questions : List String) (resp base : String) (codebook : List CodeRow) :
    String × List CodeRow × Nat :=
  questions.foldl (fun acc q =>
    let res := oracle q resp acc.2.1
    (merge_other_codes acc.1 res.1, res.2, acc.2.2 + 1)) (base, codebook, 0)

/-- The row loop of `process_other_columns`: every row whose `_OTRO` cell is
non-null is classified — there is no already-coded check. -/
def process_other_rows (oracle : String → String → List CodeRow → String × List CodeRow)
    (questions : List String) :
    List ORow → List CodeRow → List ORow × List CodeRow × Nat
  | [], codebook => ([], codebook, 0)
  | row :: rest, codebook =>
    match row.otro with
    | none =>
      let next := process_other_rows oracle questions rest codebook
      (row :: next.1, next.2)
    | some resp =>
      let cell := process_other_cell oracle questions resp row.base codebook
      let next := process_other_rows oracle questions rest cell.2.1
      ({ otro := row.otro, base := cell.1 } :: next.1, next.2.1, next.2.2 + cell.2.2)

/-- The function `process_other_columns` for one open-ended column: normalize the base
column, then run the row loop. -/
def process_other_columns (oracle : String → String → List CodeRow → String × List CodeRow)
    (questions : List String) (rows : List ORow) (codebook : List CodeRow) :
    List ORow × List CodeRow × Nat :=
  let rows0 := rows.map (fun row => { row with base := normalize_code_cell row.base })
  process_other_rows oracle questions rows0 codebook


/-! ## C3: re-running on a fully coded table -/

theorem process_closed_aux_all_coded
    (oracle : String → List CodeRow → String × List CodeRow) :
    ∀ (rs : List String) (table : List Row) (codebook : List CodeRow) (skip : Bool),
      (∀ r ∈ rs, has_code table r = true) →
      process_closed_aux oracle rs table codebook skip = (table, codebook, 0, skip) := by
  intro rs
  induction rs with
  | nil => intro table codebook skip _; rfl
  | cons r rest ih =>
    intro table codebook skip h
    have hr := h r (List.mem_cons_self _ _)
    simp only [process_closed_aux, hr, if_true]
    exact ih table codebook skip (fun x hx => h x (List.mem_cons_of_mem _ hx))

theorem has_code_of_mem_unique {table : List Row}
    (hne : ∀ row ∈ table, pyStrip row.code ≠ "") {r : String}
    (hr : r ∈ unique_responses table) : has_code table r = true := by
  have hmem := mem_dedupFirst hr
  rcases List.mem_filterMap.mp hmem with ⟨row, hrow, hresp⟩
  refine List.any_eq_true.mpr ⟨row, hrow, ?_⟩
  simp only [Bool.and_eq_true, decide_eq_true_eq]
  exact ⟨hresp, hne row hrow⟩

/-- C3 (amended, closed columns): on a closed column each of whose code
cells is non-empty and already in the normalized two-digit form, re-running
the column loop (with no pending skip directive) makes zero oracle
invocations — hence zero model calls — and returns the table and the
codebook unchanged.  Open-ended columns do **not** satisfy this: see the
counterexample, where a fully coded open column is re-classified. -/
theorem c3_closed_column_identity
    (oracle : String → List CodeRow → String × List CodeRow)
    (table : List Row) (codebook : List CodeRow)
    (hne : ∀ row ∈ table, pyStrip row.code ≠ "")
    (hnorm : ∀ row ∈ table, normalize_code_cell row.code = row.code) :
    process_closed_column oracle table codebook false
      = (table, codebook, 0, false) := by
  have ht0 : table.map (fun row => { row with code := normalize_code_cell row.code })
      = table := by
    conv_rhs => rw [← List.map_id table]
    exact List.map_congr_left (fun row hrow => by rw [hnorm row hrow]; rfl)
  unfold process_closed_column
  dsimp only
  rw [ht0]
  exact process_closed_aux_all_coded oracle _ table codebook false
    (fun r hr => has_code_of_mem_unique hne hr)

theorem c3_closed_column_identity_witness :
    (∀ row ∈ [Row.mk (some "a") "01"], pyStrip row.code ≠ "") ∧
    (∀ row ∈ [Row.mk (some "a") "01"], normalize_code_cell row.code = row.code) ∧
    process_closed_column (fun _ cb => ("05", cb)) [Row.mk (some "a") "01"] [] false
      = ([Row.mk (some "a") "01"], [], 0, false) :=
  ⟨by decide, by decide,
    c3_closed_column_identity (fun _ cb => ("05", cb)) [Row.mk (some "a") "01"] []
      (by decide) (by decide)⟩

/-- C3 (counterexample): an open-ended column whose base code cell is
already non-empty is still re-classified on a re-run — one oracle
invocation (one or more model calls) happens and the table changes, so the
run is neither model-call-free nor an identity. -/
theorem c3_counterexample :
    (∀ row ∈ [ORow.mk (some "algo") "01"], pyStrip row.base ≠ "") ∧
    (process_other_columns (fun _ _ cb => ("02", cb)) ["Q"]
      [ORow.mk (some "algo") "01"] []).2.2 = 1 ∧
    (process_other_columns (fun _ _ cb => ("02", cb)) ["Q"]
      [ORow.mk (some "algo") "01"] []).1 ≠ [ORow.mk (some "algo") "01"] := by
  decide

/-! ## C4: the one-shot skip directive -/

theorem process_closed_aux_flag_false
    (oracle : String → List CodeRow → String × List CodeRow) :
    ∀ (rs : List String) (table : List Row) (codebook : List CodeRow),
      (process_closed_aux oracle rs table codebook false).2.2.2 = false := by
  intro rs
  induction rs with
  | nil => intro table codebook; rfl
  | cons r rest ih =>
    intro table codebook
    by_cases hr : has_code table r
    · simp only [process_closed_aux, hr, if_true]
      exact ih table codebook
    · simp only [process_closed_aux, hr, Bool.false_eq_true, if_false]
      exact ih _ _

/-- C4 (amended): when the column loop runs with the one-shot skip directive
set, the first uncoded unique response is consumed by the directive — the
whole run equals writing the hardcoded code `"99"` to its rows (no oracle
call, hence no model call, for that response) and continuing the remaining
responses with the directive cleared; and a run with the directive cleared
keeps it cleared, so no later uncoded response is skipped. -/
theorem c4_skip_directive (oracle : String → List CodeRow → String × List CodeRow)
    (pre : List String) (r : String) (post : List String)
    (table : List Row) (codebook : List CodeRow)
    (hpre : ∀ x ∈ pre, has_code table x = true)
    (hr : has_code table r = false) :
    process_closed_aux oracle (pre ++ r :: post) table codebook true
      = process_closed_aux oracle post (write_code table r "99") codebook false ∧
    (∀ (rs : List String) (t : List Row) (cb : List CodeRow),
      (process_closed_aux oracle rs t cb false).2.2.2 = false) := by
  refine ⟨?_, process_closed_aux_flag_false oracle⟩
  induction pre with
  | nil =>
    simp only [List.nil_append, process_closed_aux, hr, Bool.false_eq_true,
      if_false, if_true]
  | cons x pre ih =>
    have hx := hpre x (List.mem_cons_self _ _)
    simp only [List.cons_append, process_closed_aux, hx, if_true]
    exact ih (fun y hy => hpre y (List.mem_cons_of_mem _ hy))

theorem c4_skip_directive_witness :
    process_closed_aux (fun _ cb => ("01", cb)) (["b"] ++ "a" :: ["c"])
        [Row.mk (some "a") "", Row.mk (some "b") "07", Row.mk (some "c") ""] [] true
      = process_closed_aux (fun _ cb => ("01", cb)) ["c"]
          (write_code [Row.mk (some "a") "", Row.mk (some "b") "07",
            Row.mk (some "c") ""] "a" "99") [] false ∧
    (∀ (rs : List String) (t : List Row) (cb : List CodeRow),
      (process_closed_aux (fun _ cb => ("01", cb)) rs t cb false).2.2.2 = false) := by
  have h := c4_skip_directive (fun _ cb => ("01", cb)) ["b"] "a" ["c"]
    [Row.mk (some "a") "", Row.mk (some "b") "07", Row.mk (some "c") ""] []
    (by decide) (by decide)
  exact h

/-- C4 (counterexample): the cell consumed by the skip directive is assigned
the hardcoded `"99"`, which is not the uncodeable sentinel `77` (and the
configuration carries no skip-code setting at all): after a resume with the
directive set, the single uncoded row holds `"99"`, and a second run no
longer skips (the returned directive flag is cleared). -/
theorem c4_counterexample :
    (process_closed_column (fun _ cb => ("01", cb)) [Row.mk (some "a") ""] [] true).1
      = [Row.mk (some "a") "99"] ∧
    (process_closed_column (fun _ cb => ("01", cb)) [Row.mk (some "a") ""] [] true).2.2.2
      = false ∧
    ("99" : String) ≠ "77" := by decide

/-! ## The reviewer (`SurveyReviewer.run`)

One review column is modelled as a list of rows (response cell, assigned
codes cell).  The completion call of `verify_codes_with_gemini` /
`verify_codes_with_openai` is abstracted by an oracle indexed by the number
of calls made so far, so that repeated calls may return different replies.
`gemini_reviewer.py` maintains a cache keyed by (question, stripped
response, stripped assignment); `reviewer.py` has no cache. -/

/-- One row of a review column. -/
structure RRow : Type where
  resp : Option String
  assigned : String
deriving DecidableEq, Repr

/-- The cache key: `(question_text, str(response_text).strip(),
str(assigned_codes).strip())`. -/
def review_key (question : String) (r : RRow) : String × String × String :=
  (question, pyStrip (r.resp.getD ""), pyStrip r.assigned)

/-- Rows skipped by the reviewer: `pd.isna(response_text)` or blank text. -/
def skip_review_row (r : RRow) : Bool :=
  match r.resp with
  | none => true
  | some t => pyStrip t = ""

/-- The reformatting the reviewer applies to a corrected reply: split on
semicolons, keep the digit tokens, zero-pad each to two digits, re-join. -/
def format_review_codes (s : String) : String :=
  joinSep ";" (((pySplit ';' s).filter (fun c => isDigitStr (pyStrip c))).map
    (fun c => padCode (natOfDigits (pyStrip c).data)))

/-- Lookup in the review cache (an association list). -/
def cache_lookup (k : String × String × String)
    (cache : List ((String × String × String) × String)) : Option String :=
  (cache.find? (fun p => p.1 = k)).map (fun p => p.2)

/-- The cached row loop of `gemini_reviewer.SurveyReviewer.run` for one
column: returns the corrected rows, the final cache, the number of
completion calls made, and the list of keys that were actually sent to the
model. -/
def review_rows_cached (question : String) (oracle : Nat → String) :
    List RRow → List ((String × String × String) × String) → Nat →
    List RRow × List ((String × String × String) × String) × Nat ×
      List (String × String × String)
  | [], cache, n => ([], cache, n, [])
  | r :: rest, cache, n =>
    if skip_review_row r then
      let next := review_rows_cached question oracle rest cache n
      (r :: next.1, next.2)
    else
      match cache_lookup (review_key question r) cache with
      | some corrected =>
        let value := format_review_codes corrected
        let r' := if value ≠ r.assigned then { r with assigned := value } else r
        let next := review_rows_cached question oracle rest cache n
        (r' :: next.1, next.2)
      | none =>
        let corrected := oracle n
        let value := format_review_codes corrected
        let r' := if value ≠ r.assigned then { r with assigned := value } else r
        let next := review_rows_cached question oracle rest
          ((review_key question r, corrected) :: cache) (n + 1)
        (r' :: next.1, next.2.1, next.2.2.1, review_key question r :: next.2.2.2)

/-- One review column in `gemini_reviewer.py`: clean the assignment column
with `clean_codes`, then run the cached row loop with an empty cache. -/
def review_column_cached (question : String) (oracle : Nat → String)
    (rows : List RRow) :
    List RRow × List ((String × String × String) × String) × Nat ×
      List (String × String × String) :=
  review_rows_cached question oracle
    (rows.map (fun r => { r with assigned := clean_codes r.assigned })) [] 0

/-- The uncached row loop of `reviewer.SurveyReviewer.run` (the OpenAI
reviewer used by the API routes): every non-skipped row makes its own
completion call. -/
def review_rows_uncached (question : String) (oracle : Nat → String) :
    List RRow → Nat → List RRow × Nat
  | [], n => ([], n)
  | r :: rest, n =>
    if skip_review_row r then
      let next := review_rows_uncached question oracle rest n
      (r :: next.1, next.2)
    else
      let value := format_review_codes (oracle n)
      let r' := if value ≠ r.assigned then { r with assigned := value } else r
      let next := review_rows_uncached question oracle rest (n + 1)
      (r' :: next.1, next.2)

/-- One review column in `reviewer.py`: clean the assignment column, then
run the uncached row loop. -/
def review_column_uncached (question : String) (oracle : Nat → String)
    (rows : List RRow) : List RRow × Nat :=
  review_rows_uncached question oracle
    (rows.map (fun r => { r with assigned := clean_codes r.assigned })) 0

/-- The value a non-skipped row ends up with, as a function of the final
cache: the reformatted cached correction for its key (writing happens only
when the value differs, but an equal value leaves the same content). -/
def review_final_value (question : String)
    (cacheF : List ((String × String × String) × String)) (r : RRow) : RRow :=
  if skip_review_row r then r
  else
    let value := format_review_codes
      ((cache_lookup (review_key question r) cacheF).getD "")
    if value ≠ r.assigned then { r with assigned := value } else r

/-! ## C5: review-cache lemmas -/

theorem cache_lookup_cons (k k' : String × String × String) (v' : String)
    (cache : List ((String × String × String) × String)) :
    cache_lookup k ((k', v') :: cache)
      = if k' = k then some v' else cache_lookup k cache := by
  unfold cache_lookup
  by_cases h : k' = k
  · rw [if_pos h, List.find?_cons_of_pos _ (by simpa using h)]
    rfl
  · rw [if_neg h, List.find?_cons_of_neg _ (by simpa using h)]

theorem review_cache_mono (question : String) (oracle : Nat → String) :
    ∀ (rows : List RRow) (cache : List ((String × String × String) × String))
      (n : Nat) (k : String × String × String) (v : String),
      cache_lookup k cache = some v →
      cache_lookup k (review_rows_cached question oracle rows cache n).2.1
        = some v := by
  intro rows
  induction rows with
  | nil => intro cache n k v h; exact h
  | cons r rest ih =>
    intro cache n k v h
    by_cases hs : skip_review_row r
    · simp only [review_rows_cached, hs, if_true]
      exact ih cache n k v h
    · simp only [review_rows_cached, hs, Bool.false_eq_true, if_false]
      cases hc : cache_lookup (review_key question r) cache with
      | some corrected =>
        dsimp only
        exact ih cache n k v h
      | none =>
        dsimp only
        refine ih _ _ k v ?_
        rw [cache_lookup_cons]
        by_cases heq : review_key question r = k
        · rw [heq] at hc
          rw [hc] at h
          cases h
        · rw [if_neg heq]
          exact h

theorem review_rows_cached_outputs (question : String) (oracle : Nat → String) :
    ∀ (rows : List RRow) (cache : List ((String × String × String) × String))
      (n : Nat),
      (review_rows_cached question oracle rows cache n).1
        = rows.map (review_final_value question
            (review_rows_cached question oracle rows cache n).2.1) := by
  intro rows
  induction rows with
  | nil => intro cache n; rfl
  | cons r rest ih =>
    intro cache n
    by_cases hs : skip_review_row r
    · simp only [review_rows_cached, hs, if_true, List.map_cons]
      have hhead : review_final_value question
          (review_rows_cached question oracle rest cache n).2.1 r = r := by
        unfold review_final_value
        rw [if_pos hs]
      rw [hhead]
      exact congrArg _ (ih cache n)
    · simp only [review_rows_cached, hs, Bool.false_eq_true, if_false]
      cases hc : cache_lookup (review_key question r) cache with
      | some corrected =>
        dsimp only
        simp only [List.map_cons]
        have hlf : cache_lookup (review_key question r)
            (review_rows_cached question oracle rest cache n).2.1
            = some corrected := review_cache_mono question oracle rest cache n _ _ hc
        have hhead : review_final_value question
            (review_rows_cached question oracle rest cache n).2.1 r
            = (if format_review_codes corrected ≠ r.assigned
                then { r with assigned := format_review_codes corrected } else r) := by
          unfold review_final_value
          rw [if_neg (by simp [hs]), hlf]
          rfl
        rw [hhead]
        exact congrArg _ (ih cache n)
      | none =>
        dsimp only
        simp only [List.map_cons]
        have hlc : cache_lookup (review_key question r)
            ((review_key question r, oracle n) :: cache) = some (oracle n) := by
          rw [cache_lookup_cons, if_pos rfl]
        have hlf : cache_lookup (review_key question r)
            (review_rows_cached question oracle rest
              ((review_key question r, oracle n) :: cache) (n + 1)).2.1
            = some (oracle n) :=
          review_cache_mono question oracle rest _ _ _ _ hlc
        have hhead : review_final_value question
            (review_rows_cached question oracle rest
              ((review_key question r, oracle n) :: cache) (n + 1)).2.1 r
            = (if format_review_codes (oracle n) ≠ r.assigned
                then { r with assigned := format_review_codes (oracle n) } else r) := by
          unfold review_final_value
          rw [if_neg (by simp [hs]), hlf]
          rfl
        rw [hhead]
        exact congrArg _ (ih _ _)

theorem review_queried_spec (question : String) (oracle : Nat → String) :
    ∀ (rows : List RRow) (cache : List ((String × String × String) × String))
      (n : Nat),
      (∀ k ∈ (review_rows_cached question oracle rows cache n).2.2.2,
        cache_lookup k cache = none) ∧
      (review_rows_cached question oracle rows cache n).2.2.2.Nodup := by
  intro rows
  induction rows with
  | nil => intro cache n; exact ⟨by simp [review_rows_cached], by simp [review_rows_cached]⟩
  | cons r rest ih =>
    intro cache n
    by_cases hs : skip_review_row r
    · simp only [review_rows_cached, hs, if_true]
      exact ih cache n
    · simp only [review_rows_cached, hs, Bool.false_eq_true, if_false]
      cases hc : cache_lookup (review_key question r) cache with
      | some corrected =>
        dsimp only
        exact ih cache n
      | none =>
        dsimp only
        have hrest := ih ((review_key question r, oracle n) :: cache) (n + 1)
        constructor
        · intro k hk
          rcases List.mem_cons.mp hk with h' | h'
          · rw [h']; exact hc
          · have h2 := hrest.1 k h'
            rw [cache_lookup_cons] at h2
            by_cases heq : review_key question r = k
            · rw [if_pos heq] at h2; cases h2
            · rw [if_neg heq] at h2; exact h2
        · refine List.nodup_cons.mpr ⟨?_, hrest.2⟩
          intro hmem
          have h2 := hrest.1 _ hmem
          rw [cache_lookup_cons, if_pos rfl] at h2
          cases h2

theorem review_final_value_assigned (question : String)
    (cacheF : List ((String × String × String) × String)) (r : RRow)
    (h : skip_review_row r = false) :
    (review_final_value question cacheF r).assigned
      = format_review_codes
          ((cache_lookup (review_key question r) cacheF).getD "") := by
  unfold review_final_value
  rw [if_neg (by simp [h])]
  dsimp only
  by_cases hv : format_review_codes
      ((cache_lookup (review_key question r) cacheF).getD "") ≠ r.assigned
  · rw [if_pos hv]
  · rw [if_neg hv]
    push_neg at hv
    exact hv.symm

/-- C5 (amended): in the **Gemini** reviewer, within one review run of a
column, each distinct (question, trimmed response, current assignment)
triple is sent to the model at most once (the list of queried keys has no
duplicate), and the corrected value of every non-skipped row is a function
of its triple alone — the reformatted cached correction for its key — so
two rows with the same triple receive the same corrected value.  The OpenAI
reviewer (`reviewer.py`, the one the API routes use) has no cache: see the
counterexample. -/
theorem c5_review_cache_determinism (question : String) (oracle : Nat → String)
    (rows : List RRow) :
    (review_column_cached question oracle rows).2.2.2.Nodup ∧
    (review_column_cached question oracle rows).1
      = (rows.map (fun r => { r with assigned := clean_codes r.assigned })).map
          (review_final_value question (review_column_cached question oracle rows).2.1) ∧
    (∀ r : RRow, skip_review_row r = false →
      (review_final_value question (review_column_cached question oracle rows).2.1 r).assigned
        = format_review_codes
            ((cache_lookup (review_key question r)
              (review_column_cached question oracle rows).2.1).getD "")) := by
  refine ⟨(review_queried_spec question oracle _ [] 0).2,
    review_rows_cached_outputs question oracle _ [] 0, ?_⟩
  intro r hr
  exact review_final_value_assigned question _ r hr

theorem c5_review_cache_determinism_witness :
    (review_column_cached "Q" (fun _ => "02")
      [RRow.mk (some "a") "01", RRow.mk (some "a") "01"]).2.2.2.Nodup ∧
    (review_column_cached "Q" (fun _ => "02")
      [RRow.mk (some "a") "01", RRow.mk (some "a") "01"]).1
      = ([RRow.mk (some "a") "01", RRow.mk (some "a") "01"].map
          (fun r => { r with assigned := clean_codes r.assigned })).map
          (review_final_value "Q" (review_column_cached "Q" (fun _ => "02")
            [RRow.mk (some "a") "01", RRow.mk (some "a") "01"]).2.1) ∧
    (review_final_value "Q" (review_column_cached "Q" (fun _ => "02")
      [RRow.mk (some "a") "01", RRow.mk (some "a") "01"]).2.1
        (RRow.mk (some "a") "01")).assigned
      = format_review_codes
          ((cache_lookup (review_key "Q" (RRow.mk (some "a") "01"))
            (review_column_cached "Q" (fun _ => "02")
              [RRow.mk (some "a") "01", RRow.mk (some "a") "01"]).2.1).getD "") := by
  have h := c5_review_cache_determinism "Q" (fun _ => "02")
    [RRow.mk (some "a") "01", RRow.mk (some "a") "01"]
  exact ⟨h.1, h.2.1, h.2.2 (RRow.mk (some "a") "01") (by decide)⟩

/-- C5 (counterexample): the OpenAI reviewer (`reviewer.py`), the one wired
to the API routes, keeps no cache: two rows carrying the identical
(question, response, assignment) triple trigger two completion calls, and
when the model answers differently they receive different corrected
values. -/
theorem c5_counterexample :
    review_key "Q" (RRow.mk (some "a") "01") = review_key "Q" (RRow.mk (some "a") "01") ∧
    (review_column_uncached "Q" (fun n => if n = 0 then "02" else "03")
      [RRow.mk (some "a") "01", RRow.mk (some "a") "01"]).2 = 2 ∧
    (review_column_uncached "Q" (fun n => if n = 0 then "02" else "03")
      [RRow.mk (some "a") "01", RRow.mk (some "a") "01"]).1
      = [RRow.mk (some "a") "02", RRow.mk (some "a") "03"] := by
  decide
